import Mathlib

/-!
Shallow embedding of `src/resource.rs` of the `platformer` repository.

The Rust module implements a keyed resource cache:

* `Resource<T>` — a three-way slot: `Ready(T)`, `Load` (pending), `Fail(&str)`.
* `ResourceProvider<T>` — trait with `acquire : &str -> Resource<T>` and
  `update : &mut Resource<T> -> ()`.
* `ResourceMethod<T, P>` — trait with
  `acquire : (&Arc<P>, &str) -> Arc<Mutex<Resource<T>>>`; implemented by
  `StreamMethod` (immediate, wraps `provider.acquire`) and `AsyncMethod`
  (returns a `Load` slot immediately and spawns a pool job that later
  overwrites the slot with `provider.acquire`).
* `ResourceStorage` — a `HashMap<String, Arc<Mutex<Resource<T>>>>` plus one
  provider and one method; `acquire` is lookup-or-create
  (`entry(..).or_insert_with(..).clone()`), `update` progresses every cached
  slot through the provider and then retains exactly the entries whose
  `Arc::strong_count` exceeds 1.

The embedding makes the `Arc` runtime explicit:

* an address `Addr := Nat` stands for the identity of one
  `Arc<Mutex<Resource<T>>>` allocation; `next` is the allocation bump pointer;
* `slots : Addr → Resource T` is the heap of slot contents (a `Mutex` write is
  a pointwise function override);
* `external : Addr → Nat` counts the `Arc` clones held outside the store's
  table (each `acquire` hands the caller one clone; dropping it is
  `ResourceStorage.release`, the model of `Arc::drop`);
* `jobs : List Job` is the queue of not-yet-run pool closures of
  `AsyncMethod`; each queued closure owns one `Arc` clone of its handle;
  `ResourceStorage.runJob` is the closure body
  `*resource.lock().unwrap() = provider.acquire(&location)`;
* `providerAcquires` / `methodAcquires` count invocations of
  `ResourceProvider::acquire` and `ResourceMethod::acquire`, so that "the
  provider/method is not invoked" is a statement about the state;
* the `HashMap` is an association list with unique keys;
  `Arc::strong_count(handle)` is the table occurrences of the address plus its
  external count plus its queued-job count.
-/

/-- `Resource<T>` from `resource.rs`: `Ready(T)`, `Load`, `Fail(&'static str)`. -/
inductive Resource (T : Type) where
  | Ready : T → Resource T
  | Load : Resource T
  | Fail : String → Resource T
deriving DecidableEq

/-- The `ResourceProvider<T>` trait: `acquire` builds a slot from a location,
`update` progresses a slot in place (modelled as a function on slots). -/
structure ResourceProvider (T : Type) where
  acquire : String → Resource T
  update : Resource T → Resource T

/-- Identity of one `Arc<Mutex<Resource<T>>>` allocation. -/
abbrev Addr := Nat

/-- A closure queued on the `AsyncMethod` thread pool: it captured an `Arc`
clone of the handle at `addr` and the owned `String` `location`. -/
structure Job where
  addr : Addr
  location : String
deriving DecidableEq

/-- The two `ResourceMethod` implementations of `resource.rs`. -/
inductive Method where
  | stream
  | async
deriving DecidableEq

/-- Pointwise override of a heap function: one `Mutex`-guarded slot write. -/
def setFun {α : Type} (f : Nat → α) (a : Nat) (v : α) : Nat → α :=
  fun x => if x = a then v else f x

/-- Increment a per-address counter at one address. -/
def bumpFun (f : Nat → Nat) (a : Nat) : Nat → Nat :=
  fun x => if x = a then f x + 1 else f x

/-- The whole runtime state of one `ResourceStorage<R, P, M>` together with the
`Arc` heap it allocates from: the table (`resources`), the fixed provider and
method, the allocator (`next`, `slots`), the external strong counts, the queued
pool jobs, and the invocation counters. -/
structure ResourceStorage (T : Type) where
  resources : List (String × Addr)
  provider : ResourceProvider T
  method : Method
  next : Addr
  slots : Addr → Resource T
  external : Addr → Nat
  jobs : List Job
  providerAcquires : Nat
  methodAcquires : Nat

namespace ResourceStorage

/-- `ResourceStorage::new`: empty table, fresh allocator, no external clones,
no queued jobs. -/
def new {T : Type} (provider : ResourceProvider T) (method : Method) :
    ResourceStorage T :=
  { resources := []
    provider := provider
    method := method
    next := 0
    slots := fun _ => Resource.Load
    external := fun _ => 0
    jobs := []
    providerAcquires := 0
    methodAcquires := 0 }

end ResourceStorage

/-- `HashMap::get` on the association-list table. -/
def lookupLoc (resources : List (String × Addr)) (location : String) :
    Option Addr :=
  match resources with
  | [] => none
  | e :: rest => if e.1 = location then some e.2 else lookupLoc rest location

/-- `StreamMethod::acquire`: `Arc::new(Mutex::new(provider.acquire(&location)))`.
Allocates a fresh handle whose slot is exactly the provider's result; counts
one method invocation and one provider invocation. -/
def StreamMethod.acquire {T : Type} (s : ResourceStorage T) (location : String) :
    Addr × ResourceStorage T :=
  (s.next,
    { s with
      next := s.next + 1
      slots := setFun s.slots s.next (s.provider.acquire location)
      providerAcquires := s.providerAcquires + 1
      methodAcquires := s.methodAcquires + 1 })

/-- `AsyncMethod::acquire`: allocates `Arc::new(Mutex::new(Resource::Load))`,
clones the handle into a pool closure that it submits (`thread_pool.spawn`),
and returns the handle. The provider is not invoked yet — the queued closure
will invoke it when it runs. -/
def AsyncMethod.acquire {T : Type} (s : ResourceStorage T) (location : String) :
    Addr × ResourceStorage T :=
  (s.next,
    { s with
      next := s.next + 1
      slots := setFun s.slots s.next Resource.Load
      jobs := s.jobs ++ [⟨s.next, location⟩]
      methodAcquires := s.methodAcquires + 1 })

/-- Dynamic dispatch of `ResourceMethod::acquire` over the two
implementations. -/
def Method.acquire {T : Type} :
    Method → ResourceStorage T → String → Addr × ResourceStorage T
  | .stream, s, location => StreamMethod.acquire s location
  | .async, s, location => AsyncMethod.acquire s location

namespace ResourceStorage

/-- `ResourceStorage::acquire`:
`self.resources.entry(location).or_insert_with(|| method.acquire(provider, location)).clone()`.
On a hit the stored handle is cloned to the caller (one more external strong
reference) and nothing else changes; on a miss the configured method produces a
fresh handle, which is inserted and cloned to the caller. -/
def acquire {T : Type} (s : ResourceStorage T) (location : String) :
    Addr × ResourceStorage T :=
  match lookupLoc s.resources location with
  | some a => (a, { s with external := bumpFun s.external a })
  | none =>
    let r := s.method.acquire s location
    (r.1,
      { r.2 with
        resources := (location, r.1) :: r.2.resources
        external := bumpFun r.2.external r.1 })

/-- Phase 1 of `ResourceStorage::update`: the loop
`for (_, resource) in self.resources.iter_mut() { self.provider.update(&mut resource.lock().unwrap()); }`,
processed entry by entry. -/
def progressEntries {T : Type} (p : ResourceProvider T) :
    List (String × Addr) → (Addr → Resource T) → Addr → Resource T
  | [], slots => slots
  | e :: rest, slots => progressEntries p rest (setFun slots e.2 (p.update (slots e.2)))

/-- Occurrences of the handle at `a` in the table (each entry owns one `Arc`). -/
def tableRefs {T : Type} (s : ResourceStorage T) (a : Addr) : Nat :=
  (s.resources.filter (fun e => e.2 = a)).length

/-- `Arc` clones of the handle at `a` owned by queued, not-yet-run pool jobs. -/
def jobRefs {T : Type} (s : ResourceStorage T) (a : Addr) : Nat :=
  (s.jobs.filter (fun j => j.addr = a)).length

/-- `Arc::strong_count` of the handle at `a`: table entries plus external
clones plus queued-job clones. -/
def strongCount {T : Type} (s : ResourceStorage T) (a : Addr) : Nat :=
  s.tableRefs a + s.external a + s.jobRefs a

/-- `ResourceStorage::update`: progress every cached slot through the
provider, then
`self.resources.retain(|_, resource| Arc::strong_count(&resource) > 1)`. -/
def update {T : Type} (s : ResourceStorage T) : ResourceStorage T :=
  let s1 := { s with slots := progressEntries s.provider s.resources s.slots }
  { s1 with resources := s1.resources.filter (fun e => 1 < s1.strongCount e.2) }

/-- The body of the closure `AsyncMethod::acquire` spawned for `j`:
`*resource.lock().unwrap() = provider.acquire(&location)` — an unconditional
overwrite of the slot — after which the closure (and the `Arc` clone it owned)
is dropped and the job leaves the queue. -/
def runJob {T : Type} (s : ResourceStorage T) (j : Job) : ResourceStorage T :=
  { s with
    slots := setFun s.slots j.addr (s.provider.acquire j.location)
    jobs := s.jobs.erase j
    providerAcquires := s.providerAcquires + 1 }

/-- An external caller drops its `Arc` clone of the handle at `a`
(`Arc::drop`): one fewer external strong reference. -/
def release {T : Type} (s : ResourceStorage T) (a : Addr) : ResourceStorage T :=
  { s with external := fun x => if x = a then s.external x - 1 else s.external x }

/-- Runtime invariant of a storage reachable from `new`: table keys are
distinct (`HashMap`), table addresses are distinct (every insertion allocates
a fresh `Arc`), and every address in the table or the job queue has been
allocated. -/
def Inv {T : Type} (s : ResourceStorage T) : Prop :=
  (s.resources.map Prod.fst).Nodup ∧
  (s.resources.map Prod.snd).Nodup ∧
  (∀ e ∈ s.resources, e.2 < s.next) ∧
  (∀ j ∈ s.jobs, j.addr < s.next)

instance {T : Type} (s : ResourceStorage T) : Decidable s.Inv := by
  unfold Inv; infer_instance

end ResourceStorage

/-- The slot content each method installs in the fresh handle it returns:
`StreamMethod` installs the provider's result, `AsyncMethod` installs `Load`
(the queued job overwrites it later). -/
def Method.initialSlot {T : Type} : Method → ResourceProvider T → String → Resource T
  | .stream, p, location => p.acquire location
  | .async, _, _ => Resource.Load

/-- `n` successive maintenance passes (`n` calls to `ResourceStorage::update`). -/
def ResourceStorage.updateIter {T : Type} : Nat → ResourceStorage T → ResourceStorage T
  | 0, s => s
  | n + 1, s => ResourceStorage.updateIter n s.update

/-- A concrete provider over `T = Nat` used to exercise the theorems on closed
inputs: `"missing.wav"` fails with `"io-error"`, every other location is
immediately `Ready 42`; `update` progresses a ready value by one. -/
def demoProvider : ResourceProvider Nat where
  acquire := fun location =>
    if location = "missing.wav" then Resource.Fail "io-error" else Resource.Ready 42
  update := fun r =>
    match r with
    | Resource.Ready n => Resource.Ready (n + 1)
    | r => r

/-- A stream-method store that has acquired `"a"` once (caller still holds the
handle). -/
def demoStore : ResourceStorage Nat :=
  ((ResourceStorage.new demoProvider Method.stream).acquire "a").2

/-- A stream-method store that has acquired the failing location
`"missing.wav"` once. -/
def demoFailStore : ResourceStorage Nat :=
  ((ResourceStorage.new demoProvider Method.stream).acquire "missing.wav").2

/-- `demoStore` after the caller dropped its handle clone: no external holder
of the `"a"` entry remains. -/
def demoReleasedStore : ResourceStorage Nat :=
  demoStore.release 0

/-- `demoStore` after additionally acquiring `"b"`: two cached locations. -/
def demoTwoStore : ResourceStorage Nat :=
  (demoStore.acquire "b").2

/-- An async-method store that has acquired `"b"` and whose caller already
dropped its clone while the pool job is still queued. -/
def demoAsyncReleasedStore : ResourceStorage Nat :=
  (((ResourceStorage.new demoProvider Method.async).acquire "b").2).release 0

/-! ## Basic lemmas about the heap and table primitives -/

theorem setFun_self {α : Type} (f : Nat → α) (a : Nat) (v : α) :
    setFun f a v a = v := by
  simp [setFun]

theorem setFun_ne {α : Type} (f : Nat → α) (a : Nat) (v : α) {x : Nat}
    (h : x ≠ a) : setFun f a v x = f x := by
  simp [setFun, h]

theorem bumpFun_ne (f : Nat → Nat) (a : Nat) {x : Nat} (h : x ≠ a) :
    bumpFun f a x = f x := by
  simp [bumpFun, h]

theorem lookupLoc_eq_none_iff {l : List (String × Addr)} {k : String} :
    lookupLoc l k = none ↔ ∀ e ∈ l, e.1 ≠ k := by
  induction l with
  | nil => simp [lookupLoc]
  | cons e rest ih =>
    by_cases h : e.1 = k
    · simp [lookupLoc, h]
    · simp [lookupLoc, h, ih]

theorem lookupLoc_mem {l : List (String × Addr)} {k : String} {a : Addr}
    (h : lookupLoc l k = some a) : (k, a) ∈ l := by
  induction l with
  | nil => simp [lookupLoc] at h
  | cons e rest ih =>
    obtain ⟨e1, e2⟩ := e
    by_cases he : e1 = k
    · subst he
      simp only [lookupLoc, if_pos] at h
      cases h
      exact List.mem_cons_self _ _
    · simp only [lookupLoc, he, if_neg, not_false_iff] at h
      exact List.mem_cons_of_mem _ (ih h)

theorem mem_lookupLoc {l : List (String × Addr)} {k : String} {a : Addr}
    (hkeys : (l.map Prod.fst).Nodup) (h : (k, a) ∈ l) :
    lookupLoc l k = some a := by
  induction l with
  | nil => simp at h
  | cons e rest ih =>
    simp only [List.map_cons, List.nodup_cons] at hkeys
    rcases List.mem_cons.1 h with h1 | h1
    · cases h1
      simp [lookupLoc]
    · have hne : e.1 ≠ k := by
        intro hk
        exact hkeys.1 (hk ▸ (List.mem_map.2 ⟨(k, a), h1, rfl⟩))
      simp only [lookupLoc, hne, if_neg, not_false_iff]
      exact ih hkeys.2 h1

theorem filter_snd_eq_nil {l : List (String × Addr)} {a : Addr}
    (h : ∀ e ∈ l, e.2 ≠ a) : l.filter (fun e => e.2 = a) = [] := by
  induction l with
  | nil => rfl
  | cons e rest ih =>
    have he : e.2 ≠ a := h e (List.mem_cons_self _ _)
    simp only [List.filter_cons, decide_eq_true_eq, he, if_neg, not_false_iff]
    exact ih fun e' h' => h e' (List.mem_cons_of_mem _ h')

theorem length_filter_snd_eq_one {l : List (String × Addr)} {k : String} {a : Addr}
    (hn : (l.map Prod.snd).Nodup) (h : (k, a) ∈ l) :
    (l.filter (fun e => e.2 = a)).length = 1 := by
  induction l with
  | nil => simp at h
  | cons e rest ih =>
    simp only [List.map_cons, List.nodup_cons] at hn
    rcases List.mem_cons.1 h with h1 | h1
    · cases h1
      have hrest : rest.filter (fun e => e.2 = a) = [] := by
        refine filter_snd_eq_nil fun e' h' hea => ?_
        exact hn.1 (hea ▸ (List.mem_map.2 ⟨e', h', rfl⟩))
      simp [List.filter_cons, hrest]
    · have hea : e.2 ≠ a := by
        intro hk
        exact hn.1 (hk ▸ (List.mem_map.2 ⟨(k, a), h1, rfl⟩))
      simp only [List.filter_cons, decide_eq_true_eq, hea, if_neg, not_false_iff]
      exact ih hn.2 h1

theorem jobRefs_pos {T : Type} {s : ResourceStorage T} {j : Job}
    (hj : j ∈ s.jobs) : 0 < s.jobRefs j.addr := by
  have : j ∈ s.jobs.filter (fun j' => j'.addr = j.addr) :=
    List.mem_filter.2 ⟨hj, by simp⟩
  have hne : s.jobs.filter (fun j' => j'.addr = j.addr) ≠ [] :=
    List.ne_nil_of_mem this
  exact List.length_pos.2 hne

theorem progressEntries_not_mem {T : Type} (p : ResourceProvider T)
    {l : List (String × Addr)} {a : Addr} (h : a ∉ l.map Prod.snd)
    (slots : Addr → Resource T) :
    ResourceStorage.progressEntries p l slots a = slots a := by
  induction l generalizing slots with
  | nil => rfl
  | cons e rest ih =>
    simp only [List.map_cons, List.mem_cons, not_or] at h
    rw [ResourceStorage.progressEntries, ih h.2, setFun_ne _ _ _ h.1]

theorem progressEntries_mem {T : Type} (p : ResourceProvider T)
    {l : List (String × Addr)} {k : String} {a : Addr}
    (hn : (l.map Prod.snd).Nodup) (h : (k, a) ∈ l)
    (slots : Addr → Resource T) :
    ResourceStorage.progressEntries p l slots a = p.update (slots a) := by
  induction l generalizing slots with
  | nil => simp at h
  | cons e rest ih =>
    simp only [List.map_cons, List.nodup_cons] at hn
    rcases List.mem_cons.1 h with h1 | h1
    · cases h1
      rw [ResourceStorage.progressEntries,
        progressEntries_not_mem p hn.1 _, setFun_self]
    · have hea : a ≠ e.2 := by
        intro hk
        exact hn.1 (hk ▸ (List.mem_map.2 ⟨(k, a), h1, rfl⟩))
      rw [ResourceStorage.progressEntries, ih hn.2 h1, setFun_ne _ _ _ hea]

/-! ## Characterization of `update` and invariant preservation -/

theorem update_resources {T : Type} (s : ResourceStorage T) :
    (s.update).resources = s.resources.filter (fun e => 1 < s.strongCount e.2) :=
  rfl

theorem update_slots {T : Type} (s : ResourceStorage T) :
    (s.update).slots = ResourceStorage.progressEntries s.provider s.resources s.slots :=
  rfl

theorem update_next {T : Type} (s : ResourceStorage T) :
    (s.update).next = s.next := rfl

theorem update_external {T : Type} (s : ResourceStorage T) :
    (s.update).external = s.external := rfl

theorem update_jobs {T : Type} (s : ResourceStorage T) :
    (s.update).jobs = s.jobs := rfl

theorem update_provider {T : Type} (s : ResourceStorage T) :
    (s.update).provider = s.provider := rfl

theorem update_method {T : Type} (s : ResourceStorage T) :
    (s.update).method = s.method := rfl

theorem strongCount_eq {T : Type} {s : ResourceStorage T} {k : String} {a : Addr}
    (hn : (s.resources.map Prod.snd).Nodup) (h : (k, a) ∈ s.resources) :
    s.strongCount a = 1 + s.external a + s.jobRefs a := by
  unfold ResourceStorage.strongCount
  rw [show s.tableRefs a = 1 from length_filter_snd_eq_one hn h]

theorem mem_update_resources {T : Type} {s : ResourceStorage T} {k : String}
    {a : Addr} (hn : (s.resources.map Prod.snd).Nodup) (h : (k, a) ∈ s.resources) :
    ((k, a) ∈ (s.update).resources ↔ 0 < s.external a + s.jobRefs a) := by
  rw [update_resources, List.mem_filter]
  constructor
  · rintro ⟨-, hp⟩
    rw [decide_eq_true_eq, strongCount_eq hn h] at hp
    omega
  · intro hp
    refine ⟨h, ?_⟩
    rw [decide_eq_true_eq, strongCount_eq hn h]
    omega

theorem Inv_update {T : Type} {s : ResourceStorage T} (h : s.Inv) :
    (s.update).Inv := by
  obtain ⟨hk, ha, hb, hj⟩ := h
  refine ⟨?_, ?_, ?_, ?_⟩
  · rw [update_resources]
    exact hk.sublist ((List.filter_sublist _).map Prod.fst)
  · rw [update_resources]
    exact ha.sublist ((List.filter_sublist _).map Prod.snd)
  · rw [update_resources, update_next]
    exact fun e he => hb e (List.mem_filter.1 he).1
  · rw [update_jobs, update_next]
    exact hj

theorem Inv_acquire {T : Type} {s : ResourceStorage T} (h : s.Inv)
    (loc : String) : ((s.acquire loc).2).Inv := by
  obtain ⟨hk, ha, hb, hj⟩ := h
  unfold ResourceStorage.acquire
  cases hl : lookupLoc s.resources loc with
  | some a => exact ⟨hk, ha, hb, hj⟩
  | none =>
    have hkey : ∀ e ∈ s.resources, e.1 ≠ loc := lookupLoc_eq_none_iff.1 hl
    cases hm : s.method <;>
      simp only [Method.acquire, StreamMethod.acquire, AsyncMethod.acquire] <;>
      refine ⟨?_, ?_, ?_, ?_⟩
    · simp only [List.map_cons, List.nodup_cons]
      exact ⟨fun hmem => by
        obtain ⟨e, he, he1⟩ := List.mem_map.1 hmem
        exact hkey e he he1, hk⟩
    · simp only [List.map_cons, List.nodup_cons]
      refine ⟨fun hmem => ?_, ha⟩
      obtain ⟨e, he, he2⟩ := List.mem_map.1 hmem
      exact absurd (he2 ▸ hb e he) (lt_irrefl _)
    · intro e he
      rcases List.mem_cons.1 he with h1 | h1
      · simp [h1]
      · exact Nat.lt_succ_of_lt (hb e h1)
    · exact fun j hjm => Nat.lt_succ_of_lt (hj j hjm)
    · simp only [List.map_cons, List.nodup_cons]
      exact ⟨fun hmem => by
        obtain ⟨e, he, he1⟩ := List.mem_map.1 hmem
        exact hkey e he he1, hk⟩
    · simp only [List.map_cons, List.nodup_cons]
      refine ⟨fun hmem => ?_, ha⟩
      obtain ⟨e, he, he2⟩ := List.mem_map.1 hmem
      exact absurd (he2 ▸ hb e he) (lt_irrefl _)
    · intro e he
      rcases List.mem_cons.1 he with h1 | h1
      · simp [h1]
      · exact Nat.lt_succ_of_lt (hb e h1)
    · intro j hjm
      rcases List.mem_append.1 hjm with h1 | h1
      · exact Nat.lt_succ_of_lt (hj j h1)
      · simp only [List.mem_singleton] at h1
        simp [h1]

/-! ## Unfolding lemmas for `acquire` -/

theorem acquire_hit {T : Type} {s : ResourceStorage T} {loc : String} {a : Addr}
    (h : lookupLoc s.resources loc = some a) :
    s.acquire loc = (a, { s with external := bumpFun s.external a }) := by
  unfold ResourceStorage.acquire
  rw [h]

theorem method_acquire_fst {T : Type} (m : Method) (s : ResourceStorage T)
    (loc : String) : (m.acquire s loc).1 = s.next := by
  cases m <;> rfl

theorem method_acquire_resources {T : Type} (m : Method) (s : ResourceStorage T)
    (loc : String) : (m.acquire s loc).2.resources = s.resources := by
  cases m <;> rfl

theorem method_acquire_slots {T : Type} (m : Method) (s : ResourceStorage T)
    (loc : String) :
    (m.acquire s loc).2.slots = setFun s.slots s.next (m.initialSlot s.provider loc) := by
  cases m <;> rfl

theorem method_acquire_next {T : Type} (m : Method) (s : ResourceStorage T)
    (loc : String) : (m.acquire s loc).2.next = s.next + 1 := by
  cases m <;> rfl

theorem method_acquire_method {T : Type} (m : Method) (s : ResourceStorage T)
    (loc : String) : (m.acquire s loc).2.method = s.method := by
  cases m <;> rfl

theorem method_acquire_provider {T : Type} (m : Method) (s : ResourceStorage T)
    (loc : String) : (m.acquire s loc).2.provider = s.provider := by
  cases m <;> rfl

theorem acquire_miss {T : Type} {s : ResourceStorage T} {loc : String}
    (h : lookupLoc s.resources loc = none) :
    (s.acquire loc).1 = s.next ∧
    (s.acquire loc).2.resources = (loc, s.next) :: s.resources ∧
    (s.acquire loc).2.slots = setFun s.slots s.next (s.method.initialSlot s.provider loc) ∧
    (s.acquire loc).2.next = s.next + 1 ∧
    (s.acquire loc).2.method = s.method ∧
    (s.acquire loc).2.provider = s.provider := by
  unfold ResourceStorage.acquire
  rw [h]
  simp only [method_acquire_fst, method_acquire_resources, method_acquire_slots,
    method_acquire_next, method_acquire_method, method_acquire_provider]
  exact ⟨trivial, trivial, trivial, trivial, trivial, trivial⟩

/-! ## Retention across iterated maintenance passes -/

theorem updateIter_retains {T : Type} :
    ∀ (n : Nat) (s : ResourceStorage T) (loc : String) (a : Addr), s.Inv →
      (loc, a) ∈ s.resources → 0 < s.external a →
      (loc, a) ∈ (ResourceStorage.updateIter n s).resources := by
  intro n
  induction n with
  | zero =>
    intro s loc a _ hmem _
    exact hmem
  | succ k ih =>
    intro s loc a h hmem hext
    exact ih s.update loc a (Inv_update h)
      ((mem_update_resources h.2.1 hmem).2 (by omega))
      (by rw [update_external]; exact hext)

/-! ## The claims -/

/-- C1: if the store's table already holds an entry for `loc`,
`ResourceStorage::acquire` returns exactly the cached handle (the stored
address), leaves the table and every slot unchanged, invokes neither
`ResourceMethod::acquire` nor `ResourceProvider::acquire`, and a further
`acquire` for `loc` returns that same handle again. -/
theorem acquire_hit_returns_cached {T : Type} (s : ResourceStorage T)
    (loc : String) (a : Addr) (h : lookupLoc s.resources loc = some a) :
    (s.acquire loc).1 = a ∧
    (s.acquire loc).2.resources = s.resources ∧
    (s.acquire loc).2.slots = s.slots ∧
    (s.acquire loc).2.methodAcquires = s.methodAcquires ∧
    (s.acquire loc).2.providerAcquires = s.providerAcquires ∧
    (((s.acquire loc).2).acquire loc).1 = a := by
  have hres : (s.acquire loc).2.resources = s.resources := by
    rw [acquire_hit h]
  have h2 : lookupLoc ((s.acquire loc).2).resources loc = some a := by
    rw [hres]
    exact h
  refine ⟨?_, hres, ?_, ?_, ?_, ?_⟩
  · rw [acquire_hit h]
  · rw [acquire_hit h]
  · rw [acquire_hit h]
  · rw [acquire_hit h]
  · rw [acquire_hit h2]

/-- C4: while a `Fail` entry for `loc` is still cached, every further
`ResourceStorage::acquire` for `loc` returns the identical failed handle with
its failure state intact and performs no provider or method invocation (no
retry). -/
theorem acquire_failed_cached_no_retry {T : Type} (s : ResourceStorage T)
    (loc : String) (a : Addr) (r : String)
    (h : lookupLoc s.resources loc = some a) (hs : s.slots a = Resource.Fail r) :
    (s.acquire loc).1 = a ∧
    (s.acquire loc).2.slots a = Resource.Fail r ∧
    (s.acquire loc).2.providerAcquires = s.providerAcquires ∧
    (s.acquire loc).2.methodAcquires = s.methodAcquires := by
  rw [acquire_hit h]
  exact ⟨rfl, hs, rfl, rfl⟩

/-- C6: the handle `StreamMethod::acquire` returns holds exactly the slot the
provider's `acquire(location)` produced — in particular it is `Load` (pending)
only if the provider itself returned `Load`. -/
theorem streamMethod_exact_provider_result {T : Type} (s : ResourceStorage T)
    (loc : String) :
    (StreamMethod.acquire s loc).2.slots (StreamMethod.acquire s loc).1 =
      s.provider.acquire loc ∧
    ((StreamMethod.acquire s loc).2.slots (StreamMethod.acquire s loc).1 =
        Resource.Load ↔
      s.provider.acquire loc = Resource.Load) := by
  have h : (StreamMethod.acquire s loc).2.slots (StreamMethod.acquire s loc).1 =
      s.provider.acquire loc := setFun_self _ _ _
  exact ⟨h, by rw [h]⟩

/-- C3: the handle `AsyncMethod::acquire` returns is in the `Load` (pending)
state at the moment it is returned, a job for exactly that handle and location
is submitted to the pool, and when that job runs it sets the handle's slot to
exactly the provider's `acquire(location)` result. -/
theorem asyncMethod_pending_then_provider_result {T : Type} (s : ResourceStorage T)
    (loc : String) :
    (AsyncMethod.acquire s loc).2.slots (AsyncMethod.acquire s loc).1 =
      Resource.Load ∧
    (⟨(AsyncMethod.acquire s loc).1, loc⟩ : Job) ∈ (AsyncMethod.acquire s loc).2.jobs ∧
    ∀ s' : ResourceStorage T,
      (s'.runJob ⟨(AsyncMethod.acquire s loc).1, loc⟩).slots
          (AsyncMethod.acquire s loc).1 =
        s'.provider.acquire loc := by
  refine ⟨setFun_self _ _ _, ?_, fun s' => setFun_self _ _ _⟩
  simp [AsyncMethod.acquire]

/-- C10: the pool job spawned by `AsyncMethod::acquire` assigns the provider's
result to the slot unconditionally: whatever value the slot was changed to in
the meantime, running the job overwrites it with `provider.acquire(location)`. -/
theorem runJob_overwrites_unconditionally {T : Type} (s : ResourceStorage T)
    (j : Job) (v : Resource T) :
    (({ s with slots := setFun s.slots j.addr v }).runJob j).slots j.addr =
      s.provider.acquire j.location ∧
    (s.runJob j).slots j.addr = s.provider.acquire j.location :=
  ⟨setFun_self _ _ _, setFun_self _ _ _⟩

/-- C5: during one `ResourceStorage::update` call, the slot of every entry
present at the start receives exactly one application of the provider's
`update` (its final content is `provider.update` of its initial content —
neither zero nor two applications), and no slot outside the table is
touched. -/
theorem update_progresses_each_entry_once {T : Type} (s : ResourceStorage T)
    (h : s.Inv) :
    (∀ loc a, (loc, a) ∈ s.resources →
      (s.update).slots a = s.provider.update (s.slots a)) ∧
    (∀ a, a ∉ s.resources.map Prod.snd → (s.update).slots a = s.slots a) := by
  refine ⟨fun loc a hmem => ?_, fun a hmem => ?_⟩
  · rw [update_slots]
    exact progressEntries_mem s.provider h.2.1 hmem s.slots
  · rw [update_slots]
    exact progressEntries_not_mem s.provider hmem s.slots

/-- C9: an entry whose background load is still queued survives the sweep of
`ResourceStorage::update`: the queued job owns an `Arc` clone of the handle, so
its strong count stays above one even with no external holder. -/
theorem inflight_job_blocks_eviction {T : Type} (s : ResourceStorage T)
    (loc : String) (a : Addr) (j : Job) (h : s.Inv) (hmem : (loc, a) ∈ s.resources)
    (hj : j ∈ s.jobs) (hja : j.addr = a) :
    (loc, a) ∈ (s.update).resources := by
  refine (mem_update_resources h.2.1 hmem).2 ?_
  have hpos := jobRefs_pos hj
  rw [hja] at hpos
  omega

/-- C7: `ResourceStorage::acquire` never removes or replaces an entry: every
existing entry survives with its slot untouched; on a hit the table and the
whole slot heap are unchanged; on a miss exactly the one new entry is
prepended. Entries can only disappear through `update`. -/
theorem acquire_frame {T : Type} (s : ResourceStorage T) (loc : String)
    (h : s.Inv) :
    (∀ e ∈ s.resources, e ∈ (s.acquire loc).2.resources ∧
      (s.acquire loc).2.slots e.2 = s.slots e.2) ∧
    (∀ a, lookupLoc s.resources loc = some a →
      (s.acquire loc).2.resources = s.resources ∧
      (s.acquire loc).2.slots = s.slots) ∧
    (lookupLoc s.resources loc = none →
      (s.acquire loc).2.resources = (loc, s.next) :: s.resources) ∧
    (∀ a, (s.release a).resources = s.resources) ∧
    (∀ j, (s.runJob j).resources = s.resources) := by
  cases hl : lookupLoc s.resources loc with
  | some a =>
    rw [acquire_hit hl]
    exact ⟨fun e he => ⟨he, rfl⟩, fun a' _ => ⟨rfl, rfl⟩,
      fun hn => Option.noConfusion hn, fun _ => rfl, fun _ => rfl⟩
  | none =>
    obtain ⟨h1, h2, h3, h4, h5, h6⟩ := acquire_miss hl
    refine ⟨fun e he => ⟨?_, ?_⟩, fun a' ha' => ?_, fun _ => h2,
      fun _ => rfl, fun _ => rfl⟩
    · rw [h2]
      exact List.mem_cons_of_mem _ he
    · rw [h3]
      exact setFun_ne _ _ _ (Nat.ne_of_lt (h.2.2.1 e he))
    · exact Option.noConfusion ha'

/-- C8: handles cached for two distinct locations are distinct allocations:
the store returns different addresses for them, and writing through one
location's handle leaves the slot seen through the other unchanged. -/
theorem distinct_locations_no_alias {T : Type} (s : ResourceStorage T)
    (loc1 loc2 : String) (a1 a2 : Addr) (h : s.Inv) (hne : loc1 ≠ loc2)
    (h1 : lookupLoc s.resources loc1 = some a1)
    (h2 : lookupLoc s.resources loc2 = some a2) :
    a1 ≠ a2 ∧ (∀ v, setFun s.slots a1 v a2 = s.slots a2) ∧
    (s.acquire loc1).1 ≠ (s.acquire loc2).1 := by
  have hm1 := lookupLoc_mem h1
  have hm2 := lookupLoc_mem h2
  have hne12 : a1 ≠ a2 := by
    intro hEq
    have heq := List.inj_on_of_nodup_map h.2.1 hm1 hm2 hEq
    exact hne (congrArg Prod.fst heq)
  refine ⟨hne12, fun v => setFun_ne _ _ _ (Ne.symm hne12), ?_⟩
  rw [acquire_hit h1, acquire_hit h2]
  exact hne12

/-- C2: the sweep of `ResourceStorage::update` removes exactly the entries
with no holder besides the store's table reference (an entry survives iff an
external clone or a queued job still refers to it); once such an entry is
removed, the next `acquire` for its location misses, allocates a fresh address
(distinct from the old handle) and installs the method's freshly produced
slot; and an entry with an external holder survives any number of `update`
calls. -/
theorem update_sweep_exact {T : Type} (s : ResourceStorage T) (h : s.Inv) :
    (∀ loc a, (loc, a) ∈ s.resources →
      ((loc, a) ∈ (s.update).resources ↔ 0 < s.external a + s.jobRefs a)) ∧
    (∀ loc a, (loc, a) ∈ s.resources → s.external a + s.jobRefs a = 0 →
      lookupLoc (s.update).resources loc = none ∧
      ((s.update).acquire loc).1 ≠ a ∧
      ((s.update).acquire loc).2.slots ((s.update).acquire loc).1 =
        s.method.initialSlot s.provider loc) ∧
    (∀ n loc a, (loc, a) ∈ s.resources → 0 < s.external a →
      (loc, a) ∈ (ResourceStorage.updateIter n s).resources) := by
  refine ⟨fun loc a hmem => mem_update_resources h.2.1 hmem,
    fun loc a hmem hz => ?_,
    fun n loc a hmem hext => updateIter_retains n s loc a h hmem hext⟩
  have hnone : lookupLoc (s.update).resources loc = none := by
    refine lookupLoc_eq_none_iff.2 fun e he hel => ?_
    rw [update_resources] at he
    obtain ⟨heMem, hp⟩ := List.mem_filter.1 he
    have heq : e = (loc, a) := List.inj_on_of_nodup_map h.1 heMem hmem hel
    rw [heq, decide_eq_true_eq, strongCount_eq h.2.1 hmem] at hp
    omega
  have hm := acquire_miss hnone
  refine ⟨hnone, ?_, ?_⟩
  · rw [hm.1, update_next]
    exact (Nat.ne_of_lt (h.2.2.1 (loc, a) hmem)).symm
  · rw [hm.2.2.1, hm.1, setFun_self]
    rfl

/-! ## Closed witnesses -/

/-- Witness for C1 at `demoStore`, whose table caches `"a"` at address 0. -/
theorem acquire_hit_returns_cached_witness :
    (demoStore.acquire "a").1 = 0 ∧
    (demoStore.acquire "a").2.resources = demoStore.resources ∧
    (demoStore.acquire "a").2.slots = demoStore.slots ∧
    (demoStore.acquire "a").2.methodAcquires = demoStore.methodAcquires ∧
    (demoStore.acquire "a").2.providerAcquires = demoStore.providerAcquires ∧
    (((demoStore.acquire "a").2).acquire "a").1 = 0 :=
  acquire_hit_returns_cached demoStore "a" 0 (by decide)

/-- Witness for C2 at `demoReleasedStore`: with the external clone dropped,
the sweep removes the `"a"` entry and the next `acquire` allocates afresh. -/
theorem update_sweep_exact_witness :
    lookupLoc ((demoReleasedStore.update).resources) "a" = none ∧
    ((demoReleasedStore.update).acquire "a").1 ≠ 0 :=
  ⟨((update_sweep_exact demoReleasedStore (by decide)).2.1 "a" 0 (by decide)
      (by decide)).1,
    ((update_sweep_exact demoReleasedStore (by decide)).2.1 "a" 0 (by decide)
      (by decide)).2.1⟩

/-- Witness for C4 at `demoFailStore`, whose `"missing.wav"` entry failed with
`"io-error"`. -/
theorem acquire_failed_cached_no_retry_witness :
    (demoFailStore.acquire "missing.wav").1 = 0 ∧
    (demoFailStore.acquire "missing.wav").2.slots 0 = Resource.Fail "io-error" ∧
    (demoFailStore.acquire "missing.wav").2.providerAcquires =
      demoFailStore.providerAcquires ∧
    (demoFailStore.acquire "missing.wav").2.methodAcquires =
      demoFailStore.methodAcquires :=
  acquire_failed_cached_no_retry demoFailStore "missing.wav" 0 "io-error"
    (by decide) (by decide)

/-- Witness for C5 at `demoStore`: the maintenance pass applies the provider's
`update` to the cached `"a"` slot exactly once. -/
theorem update_progresses_each_entry_once_witness :
    (demoStore.update).slots 0 = demoStore.provider.update (demoStore.slots 0) :=
  (update_progresses_each_entry_once demoStore (by decide)).1 "a" 0 (by decide)

/-- Witness for C7 at `demoStore`: an `acquire` hit on `"a"` leaves the table
and the slot heap unchanged. -/
theorem acquire_frame_witness :
    (demoStore.acquire "a").2.resources = demoStore.resources ∧
    (demoStore.acquire "a").2.slots = demoStore.slots :=
  (acquire_frame demoStore "a" (by decide)).2.1 0 (by decide)

/-- Witness for C8 at `demoTwoStore`, caching `"a"` at 0 and `"b"` at 1. -/
theorem distinct_locations_no_alias_witness :
    (0 : Addr) ≠ 1 ∧
    (∀ v, setFun demoTwoStore.slots 0 v 1 = demoTwoStore.slots 1) ∧
    (demoTwoStore.acquire "a").1 ≠ (demoTwoStore.acquire "b").1 :=
  distinct_locations_no_alias demoTwoStore "a" "b" 0 1 (by decide) (by decide)
    (by decide) (by decide)

/-- Witness for C9 at `demoAsyncReleasedStore`: the queued pool job keeps the
`"b"` entry alive through a sweep although no external holder remains. -/
theorem inflight_job_blocks_eviction_witness :
    ("b", 0) ∈ (demoAsyncReleasedStore.update).resources :=
  inflight_job_blocks_eviction demoAsyncReleasedStore "b" 0 ⟨0, "b"⟩
    (by decide) (by decide) (by decide) (by decide)
